import Mathlib

/-!
Shallow embedding of the `cache` Go package (src/cache.go): an in-process
key-value cache with lazy expiry plus a background cleaner goroutine that
owns a singly linked chain of pending expirations.

Time (`time.Time`) is modelled as an integer instant whose zero value is `0`;
`t.Before(u)` is `t < u` and `t.IsZero()` is `t = 0`.  The `sync.Map` is
modelled as an association list with unique keys; stored values are pointers
`*item[V]`, modelled as a pair of an allocation address and the pointee.
The cleaner goroutine is modelled as a transition system: one boot step
(the non-blocking select before the loop) and one step per loop iteration,
driven by the event received in the `select`.
-/

namespace CacheGo

/-- Go `time.Time` as an instant; the zero value of `time.Time` is `0`. -/
abbrev Time := Int

/-- `item[T]` (src/cache.go lines 36-39): data stored along with the expiry
date.  The Go zero value of `expires` is the zero instant `0`. -/
structure Item (T : Type) where
  data : T
  expires : Time
deriving DecidableEq

/-- `item.HasExpired` (lines 43-45): true if the expiry time is non-zero and
is strictly before `now` (`expires.Before(timeNow())`). -/
def Item.HasExpired (c : Item T) (now : Time) : Bool :=
  decide (c.expires ≠ 0) && decide (c.expires < now)

/-- A Go interface value as it appears in the `sync.Map.CompareAndDelete`
comparison at line 117.  The store only ever holds values of dynamic type
pointer-to-`item[V]` (stored by `Set`/`SetPermanent`), compared by address;
the cleaner passes `c.chain.item`, a struct value of dynamic type `item[K]`,
compared field-wise.  Go `==` on interface values of distinct dynamic types
is `false`. -/
inductive GoVal (K V : Type) where
  | ptrItemV (addr : Nat)
  | valItemK (it : Item K)
deriving DecidableEq

/-- Go interface equality for the two dynamic types that can meet in the
comparison: pointers are equal iff their addresses are, struct values iff
their fields are, and values of distinct dynamic types are never equal. -/
def GoVal.goEq [DecidableEq K] : GoVal K V → GoVal K V → Bool
  | GoVal.ptrItemV a, GoVal.ptrItemV b => a == b
  | GoVal.valItemK x, GoVal.valItemK y => x == y
  | _, _ => false

/-- The `sync.Map` contents: an association list from keys to stored
pointers, each pointer being an allocation address paired with its pointee
`item[V]`. -/
abbrev Store (K V : Type) := List (K × Nat × Item V)

/-- `sync.Map.Load`. -/
def mapLoad [DecidableEq K] (m : Store K V) (k : K) : Option (Nat × Item V) :=
  (m.find? (fun p => p.1 == k)).map Prod.snd

/-- `sync.Map.Store`: unconditional overwrite, inserting if absent. -/
def mapStore [DecidableEq K] (m : Store K V) (k : K) (v : Nat × Item V) :
    Store K V :=
  if (mapLoad m k).isSome then
    m.map (fun p => if p.1 == k then (k, v) else p)
  else
    m ++ [(k, v)]

/-- `sync.Map.Delete`: no-op if absent. -/
def mapDelete [DecidableEq K] (m : Store K V) (k : K) : Store K V :=
  m.filter (fun p => !(p.1 == k))

/-- `sync.Map.CompareAndDelete(key, old)` as invoked by the cleaner at line
117: deletes the entry for `key` iff the stored value is Go-equal to `old`.
The stored value has dynamic type pointer-to-`item[V]`, so it is lifted to
`GoVal.ptrItemV` before the comparison. -/
def compareAndDelete [DecidableEq K] (m : Store K V) (k : K)
    (old : GoVal K V) : Store K V × Bool :=
  match mapLoad m k with
  | none => (m, false)
  | some (addr, _) =>
    if (GoVal.ptrItemV addr : GoVal K V).goEq old then (mapDelete m k, true)
    else (m, false)

/-- `chainInsert` (lines 131-155), on the chain viewed as the list of node
payloads.  Quick path for the empty chain; otherwise walk from the head:
append when `ring.next == nil`, and when `ring.expires.After(node.expires)`
place the new node between `ring` and `ring.next`. -/
def chainInsert [DecidableEq K] : List (Item K) → Item K → List (Item K)
  | [], node => [node]
  | ring :: rest, node =>
    match rest with
    | [] => [ring, node]
    | _ :: _ =>
      if ring.expires > node.expires then ring :: node :: rest
      else ring :: chainInsert rest node

/-- `chainSplice` (lines 157-188): splices out the first node whose key
matches; no-op on the empty chain or when the key is absent.  The quick path
for a matching head and the walk both remove exactly the first match. -/
def chainSplice [DecidableEq K] : List (Item K) → K → List (Item K)
  | [], _ => []
  | head :: rest, key =>
    if head.data == key then rest else head :: chainSplice rest key

/-- The sweep loop of the cleaner (lines 116-119): while the head of the
chain has expired, issue `CompareAndDelete(c.chain.data, c.chain.item)`
against the store and pop the head.  Returns the remaining chain and the
resulting store. -/
def sweep [DecidableEq K] (now : Time) :
    List (Item K) → Store K V → List (Item K) × Store K V
  | [], items => ([], items)
  | head :: rest, items =>
    if head.HasExpired now then
      sweep now rest (compareAndDelete items head.data (GoVal.valItemK head)).1
    else (head :: rest, items)

/-- The facade state: the `sync.Map` contents, the next fresh allocation
address for a stored `&item[V]{...}`, and whether `Close` has been called
(`close(c.close)` makes every later receive on `c.close` succeed, so the
closed-check `select` in the writers takes the `return` branch exactly when
this flag is set). -/
structure CacheState (K V : Type) where
  items : Store K V
  nextAddr : Nat
  closed : Bool
deriving DecidableEq

/-- An instruction sent by the facade to the cleaner: a value on `chainAdd`
(carrying `keyed[K]{item: item[K]{data: key, expires: expires}}`) or on
`chainDel` (carrying the key). -/
inductive Instr (K : Type) where
  | add (node : Item K)
  | del (key : K)
deriving DecidableEq

/-- `GetExpires` (lines 192-206): `(value, expiry, true)` for a present,
non-expired key; `(V zero value, time.Time zero, false)` otherwise. -/
def GetExpires [DecidableEq K] [Inhabited V] (c : CacheState K V) (key : K)
    (now : Time) : V × Time × Bool :=
  match mapLoad c.items key with
  | none => (default, 0, false)
  | some (_, i) =>
    if i.HasExpired now then (default, 0, false) else (i.data, i.expires, true)

/-- `Get` (lines 211-214): `GetExpires` with the expiry dropped. -/
def Get [DecidableEq K] [Inhabited V] (c : CacheState K V) (key : K)
    (now : Time) : V × Bool :=
  ((GetExpires c key now).1, (GetExpires c key now).2.2)

/-- `SetPermanent` (lines 219-229): no-op if closed; otherwise stores a
fresh `&item[V]{data: value}` (zero `expires`).  Returns the new state and
the (empty) list of instructions sent. -/
def SetPermanent [DecidableEq K] (c : CacheState K V) (key : K) (value : V) :
    CacheState K V × List (Instr K) :=
  if c.closed then (c, [])
  else
    (CacheState.mk (mapStore c.items key (c.nextAddr, Item.mk value 0))
      (c.nextAddr + 1) c.closed, [])

/-- `Set` (lines 234-249): no-op if closed; no-op if
`expires.Before(timeNow())`; otherwise stores a fresh
`&item[V]{data: value, expires: expires}` and sends
`keyed[K]{item: item[K]{data: key, expires: expires}}` on `chainAdd`. -/
def Set [DecidableEq K] (c : CacheState K V) (key : K) (value : V)
    (expires now : Time) : CacheState K V × List (Instr K) :=
  if c.closed then (c, [])
  else if expires < now then (c, [])
  else
    (CacheState.mk (mapStore c.items key (c.nextAddr, Item.mk value expires))
      (c.nextAddr + 1) c.closed, [Instr.add (Item.mk key expires)])

/-- `Delete` (lines 252-262): no-op if closed; otherwise deletes from the
store and sends the key on `chainDel`. -/
def Delete [DecidableEq K] (c : CacheState K V) (key : K) :
    CacheState K V × List (Instr K) :=
  if c.closed then (c, [])
  else (CacheState.mk (mapDelete c.items key) c.nextAddr c.closed,
    [Instr.del key])

/-- The iteration body of `Range` (lines 270-279) over the store entries:
an expired entry is skipped (the closure returns `true` without calling
`f`); otherwise `f` is called and a `false` result stops the iteration.
Returns the list of (key, value) pairs `f` was invoked on, in order. -/
def rangeGo [DecidableEq K] (f : K → V → Bool) (now : Time) :
    Store K V → List (K × V)
  | [] => []
  | (k, _, i) :: rest =>
    if i.HasExpired now then rangeGo f now rest
    else if f k i.data then (k, i.data) :: rangeGo f now rest
    else [(k, i.data)]

/-- `Range` (lines 270-279): the method only reads the store (no `Store`,
`Delete` or channel send occurs in its body), so it returns the state
unchanged, sends no instruction, and produces the list of visited pairs. -/
def Range [DecidableEq K] (c : CacheState K V) (f : K → V → Bool)
    (now : Time) : CacheState K V × List (Instr K) × List (K × V) :=
  (c, [], rangeGo f now c.items)

/-- An event received by the cleaner loop (lines 91-120) in its `select`:
a node on `chainAdd`, a key on `chainDel`, the expiry timer firing at the
given current time, or the `close` channel being ready. -/
inductive Event (K : Type) where
  | add (node : Item K)
  | del (key : K)
  | timer (now : Time)
  | closeSig
deriving DecidableEq

/-- The cleaner goroutine's state: the chain it exclusively owns, the store
it reconciles against, and whether the goroutine has returned. -/
structure CleanerState (K V : Type) where
  chain : List (Item K)
  items : Store K V
  terminated : Bool
deriving DecidableEq

/-- The cleaner's bootstrap (lines 73-86): one non-blocking `select` on
`chainAdd`/`chainDel` (with a `default` branch when neither is ready,
modelled by `pending = none`), then `return` iff the chain is `nil`. -/
def cleanerBoot [DecidableEq K] (chain : List (Item K)) (items : Store K V)
    (pending : Option (Instr K)) : CleanerState K V :=
  let chain' := match pending with
    | some (Instr.add node) => chainInsert chain node
    | some (Instr.del key) => chainSplice chain key
    | none => chain
  CleanerState.mk chain' items chain'.isEmpty

/-- One iteration of the cleaner loop (lines 91-128).  A terminated cleaner
takes no further step.  Receiving on `close` returns.  An insert or delete
instruction mutates the chain (after the timer was stopped); the timer case
returns if the chain is `nil` and otherwise sweeps; afterwards (line 123)
the loop returns iff the chain is `nil`, else the timer is re-armed. -/
def cleanerStep [DecidableEq K] (s : CleanerState K V) (e : Event K) :
    CleanerState K V :=
  if s.terminated then s
  else
    match e with
    | Event.closeSig => CleanerState.mk s.chain s.items true
    | Event.add node =>
      let chain' := chainInsert s.chain node
      CleanerState.mk chain' s.items chain'.isEmpty
    | Event.del key =>
      let chain' := chainSplice s.chain key
      CleanerState.mk chain' s.items chain'.isEmpty
    | Event.timer now =>
      if s.chain.isEmpty then CleanerState.mk s.chain s.items true
      else
        let swept := sweep now s.chain s.items
        CleanerState.mk swept.1 swept.2 swept.1.isEmpty

end CacheGo

namespace CacheGo

/-- `chainInsert` never produces an empty chain (used at line 101's comment:
the chain is non-empty after an insert). -/
theorem chainInsert_ne_nil [DecidableEq K] (chain : List (Item K))
    (node : Item K) : chainInsert chain node ≠ [] := by
  cases chain with
  | nil => simp [chainInsert]
  | cons ring rest =>
    cases rest with
    | nil => simp [chainInsert]
    | cons a l =>
      simp only [chainInsert]
      split <;> simp

/-- The comparison at line 117 can never succeed: the expected value is an
`item[K]` struct while the stored value is a `*item[V]` pointer, and Go
interface equality across distinct dynamic types is `false`. -/
theorem compareAndDelete_valItemK [DecidableEq K] (m : Store K V) (k : K)
    (it : Item K) : (compareAndDelete m k (GoVal.valItemK it)).1 = m := by
  unfold compareAndDelete
  cases h : mapLoad m k with
  | none => rfl
  | some p =>
    cases p with
    | mk addr i => simp [GoVal.goEq]

/-- The sweep loop leaves the store exactly as it found it. -/
theorem sweep_items_unchanged [DecidableEq K] (now : Time)
    (chain : List (Item K)) (items : Store K V) :
    (sweep now chain items).2 = items := by
  induction chain generalizing items with
  | nil => rfl
  | cons head rest ih =>
    unfold sweep
    split
    · rw [ih, compareAndDelete_valItemK]
    · rfl

/-- A live head stops the sweep immediately. -/
theorem sweep_head_live [DecidableEq K] (now : Time) (head : Item K)
    (rest : List (Item K)) (items : Store K V)
    (h : head.HasExpired now = false) :
    sweep now (head :: rest) items = (head :: rest, items) := by
  unfold sweep
  simp [h]

/-- At the instant exactly equal to its expiry, an item has not expired:
`expires.Before(now)` is strict. -/
theorem hasExpired_boundary {α : Type} (x : α) (e : Time) :
    (Item.mk x e).HasExpired e = false := by
  simp [Item.HasExpired]

/-- An item with the zero expiry never expires. -/
theorem hasExpired_zero {α : Type} (x : α) (t : Time) :
    (Item.mk x 0).HasExpired t = false := by
  simp [Item.HasExpired]

/-- Loading the key just stored yields the stored value. -/
theorem mapLoad_mapStore_self [DecidableEq K] (m : Store K V) (k : K)
    (v : Nat × Item V) : mapLoad (mapStore m k v) k = some v := by
  unfold mapStore
  split
  · unfold mapLoad
    rw [List.find?_map]
    have hp : ((fun p : K × Nat × Item V => p.1 == k) ∘
        (fun p => if p.1 == k then (k, v) else p)) = fun p => p.1 == k := by
      funext p
      by_cases h : p.1 = k
      · simp [h]
      · simp [h]
    rw [hp]
    rename_i hs
    unfold mapLoad at hs
    cases hq : m.find? (fun p => p.1 == k) with
    | none => rw [hq] at hs; simp at hs
    | some q =>
      have hqk : q.1 = k := by
        have h2 := List.find?_some hq
        simpa using h2
      simp [hqk]
  · unfold mapLoad
    rw [List.find?_append]
    rename_i hs
    unfold mapLoad at hs
    have hn : m.find? (fun p => p.1 == k) = none := by
      cases hfind : m.find? (fun p => p.1 == k) with
      | none => rfl
      | some q => rw [hfind] at hs; simp at hs
    rw [hn]
    simp

end CacheGo

namespace CacheGo

/-- The overwrite closure of `mapStore` leaves the key-matching predicate
unchanged. -/
theorem storePred_comp [DecidableEq K] (k : K) (v : Nat × Item V) :
    ((fun p : K × Nat × Item V => p.1 == k) ∘
      (fun p => if p.1 == k then (k, v) else p)) = fun p => p.1 == k := by
  funext p
  by_cases h : p.1 = k
  · simp [h]
  · simp [h]

/-- If a key is absent, the underlying search fails. -/
theorem find?_eq_none_of_mapLoad [DecidableEq K] (m : Store K V) (k : K)
    (h : mapLoad m k = none) : m.find? (fun p => p.1 == k) = none := by
  unfold mapLoad at h
  cases hf : m.find? (fun p => p.1 == k) with
  | none => rfl
  | some q => rw [hf] at h; simp at h

/-- An absent key has no entries at all. -/
theorem countP_eq_zero_of_absent [DecidableEq K] (m : Store K V) (k : K)
    (h : mapLoad m k = none) : m.countP (fun p => p.1 == k) = 0 := by
  rw [List.countP_eq_zero]
  intro p hp
  exact List.find?_eq_none.mp (find?_eq_none_of_mapLoad m k h) p hp

/-- With unique keys, a present key has exactly one entry. -/
theorem countP_eq_one_of_present [DecidableEq K] (m : Store K V) (k : K)
    (hnd : (m.map Prod.fst).Nodup) (h : (mapLoad m k).isSome) :
    m.countP (fun p => p.1 == k) = 1 := by
  induction m with
  | nil => unfold mapLoad at h; simp at h
  | cons p t ih =>
    rw [List.map_cons, List.nodup_cons] at hnd
    obtain ⟨hpk, hndt⟩ := hnd
    rw [List.countP_cons]
    by_cases hk : p.1 = k
    · have ht : t.countP (fun q => q.1 == k) = 0 := by
        rw [List.countP_eq_zero]
        intro q hq hcon
        have hq1 : q.1 = k := by simpa using hcon
        apply hpk
        rw [hk, ← hq1]
        exact List.mem_map_of_mem Prod.fst hq
      simp [ht, hk]
    · have h' : (mapLoad t k).isSome := by
        unfold mapLoad at h ⊢
        simp only [List.find?_cons] at h
        have hbk : (p.1 == k) = false := by simp [hk]
        rw [hbk] at h
        simpa using h
      simp [hk, ih hndt h']

/-- `mapStore` keeps the key set duplicate-free. -/
theorem mapStore_keys_nodup [DecidableEq K] (m : Store K V) (k : K)
    (v : Nat × Item V) (hnd : (m.map Prod.fst).Nodup) :
    ((mapStore m k v).map Prod.fst).Nodup := by
  unfold mapStore
  split
  · rw [List.map_map]
    have hp : (Prod.fst ∘ fun p : K × Nat × Item V =>
        if p.1 == k then (k, v) else p) = Prod.fst := by
      funext p
      by_cases h : p.1 = k
      · simp [h]
      · simp [h]
    rw [hp]
    exact hnd
  · rename_i hs
    rw [List.map_append, List.nodup_append]
    refine ⟨hnd, by simp, ?_⟩
    intro a ha hb
    have hb' : a = k := by simpa using hb
    have hml : mapLoad m k = none := by
      cases hml : mapLoad m k with
      | none => rfl
      | some q => rw [hml] at hs; simp at hs
    obtain ⟨q, hq, hq2⟩ := List.mem_map.mp ha
    have hqn := List.find?_eq_none.mp (find?_eq_none_of_mapLoad m k hml) q hq
    apply hqn
    simp [hq2, hb']

/-- With unique keys, the store after `mapStore` holds exactly one entry for
the stored key. -/
theorem mapStore_countP [DecidableEq K] (m : Store K V) (k : K)
    (v : Nat × Item V) (hnd : (m.map Prod.fst).Nodup) :
    (mapStore m k v).countP (fun p => p.1 == k) = 1 := by
  unfold mapStore
  split
  · rw [List.countP_map, storePred_comp]
    exact countP_eq_one_of_present m k hnd (by assumption)
  · rw [List.countP_append]
    rename_i hs
    have hml : mapLoad m k = none := by
      cases hml : mapLoad m k with
      | none => rfl
      | some q => rw [hml] at hs; simp at hs
    rw [countP_eq_zero_of_absent m k hml]
    simp

/-- Splitting membership in `dropLast` of a cons. -/
theorem mem_dropLast_cons {α : Type} (x : α) (xs : List α) (y : α)
    (h : y ∈ (x :: xs).dropLast) : y = x ∨ y ∈ xs.dropLast := by
  cases xs with
  | nil => simp at h
  | cons a l =>
    rw [List.dropLast_cons₂] at h
    exact List.mem_cons.mp h

/-- Every pair the `Range` closure passes to `f` comes from a store entry
that had not expired at the time of the check. -/
theorem rangeGo_mem [DecidableEq K] (f : K → V → Bool) (now : Time)
    (l : Store K V) (kv : K × V) (h : kv ∈ rangeGo f now l) :
    ∃ a i, (kv.1, (a, i)) ∈ l ∧ Item.HasExpired i now = false
      ∧ kv.2 = i.data := by
  induction l with
  | nil => simp [rangeGo] at h
  | cons p rest ih =>
    obtain ⟨k, a, i⟩ := p
    simp only [rangeGo] at h
    by_cases he : i.HasExpired now = true
    · rw [if_pos he] at h
      obtain ⟨a2, i2, h1, h2, h3⟩ := ih h
      exact ⟨a2, i2, List.mem_cons_of_mem _ h1, h2, h3⟩
    · rw [if_neg he] at h
      have he' : Item.HasExpired i now = false := by
        cases hb : Item.HasExpired i now
        · rfl
        · exact absurd hb he
      by_cases hf : f k i.data = true
      · rw [if_pos hf] at h
        rcases List.mem_cons.mp h with h1 | h1
        · subst h1
          exact ⟨a, i, List.mem_cons_self _ _, he', rfl⟩
        · obtain ⟨a2, i2, h1, h2, h3⟩ := ih h1
          exact ⟨a2, i2, List.mem_cons_of_mem _ h1, h2, h3⟩
      · rw [if_neg hf] at h
        rcases List.mem_singleton.mp h with h1
        subst h1
        exact ⟨a, i, List.mem_cons_self _ _, he', rfl⟩

/-- Only the very last pair the `Range` closure passes to `f` may make `f`
answer `false`: the iteration stops there. -/
theorem rangeGo_stops [DecidableEq K] (f : K → V → Bool) (now : Time)
    (l : Store K V) (kv : K × V) (h : kv ∈ (rangeGo f now l).dropLast) :
    f kv.1 kv.2 = true := by
  induction l with
  | nil => simp [rangeGo] at h
  | cons p rest ih =>
    obtain ⟨k, a, i⟩ := p
    simp only [rangeGo] at h
    by_cases he : i.HasExpired now = true
    · rw [if_pos he] at h
      exact ih h
    · rw [if_neg he] at h
      by_cases hf : f k i.data = true
      · rw [if_pos hf] at h
        rcases mem_dropLast_cons _ _ _ h with h1 | h1
        · subst h1
          exact hf
        · exact ih h1
      · rw [if_neg hf] at h
        simp at h

end CacheGo

namespace CacheGo

/-- Reading a present key reduces to the lazy expiry check. -/
theorem GetExpires_eq [DecidableEq K] [Inhabited V] (c : CacheState K V)
    (k : K) (now : Time) (a : Nat) (i : Item V)
    (h : mapLoad c.items k = some (a, i)) :
    GetExpires c k now
      = if i.HasExpired now then (default, 0, false)
        else (i.data, i.expires, true) := by
  unfold GetExpires
  rw [h]

/-- Reading an absent key reports not-found. -/
theorem GetExpires_none [DecidableEq K] [Inhabited V] (c : CacheState K V)
    (k : K) (now : Time) (h : mapLoad c.items k = none) :
    GetExpires c k now = (default, 0, false) := by
  unfold GetExpires
  rw [h]

/-- On an open cache, a key just written by `SetPermanent` reads back with
its value, the zero expiry, and `found = true`, at every read time. -/
theorem getExpires_after_setPermanent [DecidableEq K] [Inhabited V]
    (c : CacheState K V) (k : K) (v : V) (t : Time)
    (hopen : c.closed = false) :
    GetExpires (SetPermanent c k v).1 k t = (v, 0, true) := by
  have h1 : (SetPermanent c k v).1
      = CacheState.mk (mapStore c.items k (c.nextAddr, Item.mk v 0))
          (c.nextAddr + 1) false := by
    simp [SetPermanent, hopen]
  rw [h1, GetExpires_eq _ k t c.nextAddr (Item.mk v 0)
      (mapLoad_mapStore_self c.items k (c.nextAddr, Item.mk v 0))]
  simp [hasExpired_zero]

/-- Claim C1: FALSIFIED BY THE CODE.  The claim says the sweep removes from
the store every popped record whose entry is still the exact snapshot taken
at schedule time.  In the code, the expected value passed to
`CompareAndDelete` at line 117 is `c.chain.item`, a struct of Go dynamic
type `item[K]`, while the store only ever holds `*item[V]` pointers; Go
interface equality between distinct dynamic types is always `false`, so the
sweep never removes anything from the store.  First conjunct: the sweep
leaves the store unchanged for every chain and every store.  Second
conjunct: on the concrete run where key `0` was set to value `1` with
expiry `5` (chain record scheduled, store entry never touched again) and
the timer fires at `6`, the chain record is popped but the expired store
entry survives. -/
theorem c1_sweep_never_removes_store_entry [DecidableEq K] (now : Time)
    (chain : List (Item K)) (items : Store K V) :
    (sweep now chain items).2 = items
    ∧ sweep 6 [Item.mk (0 : Nat) 5] [((0 : Nat), 0, Item.mk (1 : Nat) 5)]
        = ([], [((0 : Nat), 0, Item.mk (1 : Nat) 5)]) :=
  ⟨sweep_items_unchanged now chain items, by decide⟩

/-- Claim C2: FALSIFIED BY THE CODE.  The claim says `chainInsert` places
the new record immediately before the first node whose expiry is strictly
later, keeping the chain sorted.  The code (lines 140-154) checks
`ring.next == nil` before any comparison and, when it compares, inserts the
new node after `ring`, not before it.  Inserting expiry `3` into the chain
`[5]` appends, producing the unsorted chain `[5, 3]` instead of the claimed
`[3, 5]`; inserting expiry `4` into `[2, 5, 9]` produces `[2, 5, 4, 9]`
instead of the claimed `[2, 4, 5, 9]`. -/
theorem c2_chainInsert_breaks_sorted_order :
    chainInsert [Item.mk (0 : Nat) 5] (Item.mk 1 3)
      = [Item.mk 0 5, Item.mk 1 3]
    ∧ ¬ List.Sorted (fun x y : Item Nat => x.expires ≤ y.expires)
        (chainInsert [Item.mk (0 : Nat) 5] (Item.mk 1 3))
    ∧ chainInsert [Item.mk (0 : Nat) 2, Item.mk 1 5, Item.mk 2 9]
        (Item.mk 3 4)
      = [Item.mk 0 2, Item.mk 1 5, Item.mk 3 4, Item.mk 2 9] := by
  refine ⟨by decide, ?_, by decide⟩
  intro hs
  have h1 : chainInsert [Item.mk (0 : Nat) 5] (Item.mk 1 3)
      = [Item.mk 0 5, Item.mk 1 3] := by decide
  rw [h1] at hs
  have h2 := List.rel_of_sorted_cons hs (Item.mk 1 3) (by simp)
  simp at h2

/-- Claim C3: the counterexample.  The claim demands `found = false` for
any read at `t ≥ e`; at the boundary `t = e` (here both `5`) the code's
strict `expires.Before(now)` check has not yet tripped, so the entry is
still returned with `found = true`. -/
theorem c3_claim_fails_at_boundary :
    (5 : Time) ≤ 5
    ∧ GetExpires (CacheState.mk [((0 : Nat), 0, Item.mk (1 : Nat) 5)] 1 false)
        0 5 = (1, 5, true) := by
  exact ⟨by decide, by decide⟩

/-- Claim C3 (amended): for a key stored with nonzero expiry `e`, `Get` and
`GetExpires` return the stored value with `found = true` for any read at
`t ≤ e`, and the zero value, zero expiry and `found = false` for any read
at `t > e` — the boundary `t = e` is live, not expired. -/
theorem c3_lazy_expiry_strict [DecidableEq K] [Inhabited V]
    (c : CacheState K V) (k : K) (a : Nat) (v : V) (e t : Time) (he : e ≠ 0)
    (hk : mapLoad c.items k = some (a, Item.mk v e)) :
    (t ≤ e → GetExpires c k t = (v, e, true) ∧ Get c k t = (v, true))
    ∧ (e < t → GetExpires c k t = (default, 0, false)
        ∧ Get c k t = (default, false)) := by
  constructor
  · intro h
    have hlt : ¬ e < t := not_lt.mpr h
    have hex : (Item.mk v e).HasExpired t = false := by
      simp [Item.HasExpired, hlt]
    have hge : GetExpires c k t = (v, e, true) := by
      rw [GetExpires_eq c k t a (Item.mk v e) hk]
      simp [hex]
    exact ⟨hge, by unfold Get; rw [hge]⟩
  · intro h
    have hex : (Item.mk v e).HasExpired t = true := by
      simp [Item.HasExpired, he, h]
    have hge : GetExpires c k t = (default, 0, false) := by
      rw [GetExpires_eq c k t a (Item.mk v e) hk]
      simp [hex]
    exact ⟨hge, by unfold Get; rw [hge]⟩

/-- Witness for the amended C3: key `0` stored with expiry `5`, read at
`t = 3`. -/
theorem c3_lazy_expiry_strict_witness :
    GetExpires (CacheState.mk [((0 : Nat), 0, Item.mk (1 : Nat) 5)] 1 false)
      0 3 = (1, 5, true) :=
  ((c3_lazy_expiry_strict
      (CacheState.mk [((0 : Nat), 0, Item.mk (1 : Nat) 5)] 1 false)
      0 0 1 5 3 (by decide) (by decide)).1 (by decide)).1

/-- Claim C4: the counterexample.  The claim demands a complete no-op for
any expiry not strictly later than the current time; at `expires = now = 5`
the code's `expires.Before(timeNow())` guard does not fire, the store is
written and an insert instruction is sent. -/
theorem c4_claim_fails_at_boundary :
    ¬ Set (CacheState.mk ([] : Store Nat Nat) 0 false) 0 1 5 5
        = (CacheState.mk ([] : Store Nat Nat) 0 false, []) := by
  decide

/-- Claim C4 (amended): on an open cache, `Set` is a complete no-op (store
untouched, no instruction sent) iff the expiry is strictly earlier than the
current time; an expiry equal to or later than now is accepted, writing the
store and sending exactly one insert instruction. -/
theorem c4_set_rejects_only_strictly_past [DecidableEq K]
    (c : CacheState K V) (k : K) (v : V) (e now : Time)
    (hopen : c.closed = false) :
    (e < now → Set c k v e now = (c, []))
    ∧ (now ≤ e → Set c k v e now
        = (CacheState.mk (mapStore c.items k (c.nextAddr, Item.mk v e))
            (c.nextAddr + 1) false, [Instr.add (Item.mk k e)])) := by
  constructor
  · intro h
    simp [Set, hopen, h]
  · intro h
    have hlt : ¬ e < now := not_lt.mpr h
    simp [Set, hopen, hlt]

/-- Witness for the amended C4: a past expiry (`3 < 5`) is a full no-op. -/
theorem c4_set_rejects_only_strictly_past_witness :
    Set (CacheState.mk ([] : Store Nat Nat) 0 false) 0 1 3 5
      = (CacheState.mk ([] : Store Nat Nat) 0 false, []) :=
  (c4_set_rejects_only_strictly_past
      (CacheState.mk ([] : Store Nat Nat) 0 false) 0 1 3 5 rfl).1 (by decide)

end CacheGo

namespace CacheGo

/-- Claim C5: CONFIRMED.  The cleaner terminates exactly when the chain is
empty or the shutdown signal arrives.  Conjunct 1: the bootstrap (one
non-blocking queue check) terminates iff the chain is empty afterwards.
Conjunct 2: a running cleaner's loop iteration terminates iff the event was
the shutdown signal or the chain is empty after the iteration.  Conjunct 3:
an insert instruction leaves the chain non-empty, so the cleaner never
terminates there.  Conjunct 4: a terminated cleaner never changes state
(in particular never mutates the chain) again. -/
theorem c5_cleaner_termination [DecidableEq K] (s : CleanerState K V)
    (e : Event K) (chain0 : List (Item K)) (items0 : Store K V)
    (pending : Option (Instr K)) (node : Item K) :
    ((cleanerBoot chain0 items0 pending).terminated = true
      ↔ (cleanerBoot chain0 items0 pending).chain = [])
    ∧ (s.terminated = false →
        ((cleanerStep s e).terminated = true
          ↔ (e = Event.closeSig ∨ (cleanerStep s e).chain = [])))
    ∧ (s.terminated = false →
        (cleanerStep s (Event.add node)).chain ≠ []
        ∧ (cleanerStep s (Event.add node)).terminated = false)
    ∧ (s.terminated = true → cleanerStep s e = s) := by
  refine ⟨?_, ?_, ?_, ?_⟩
  · simp only [cleanerBoot]
    exact List.isEmpty_iff
  · intro h
    cases e with
    | closeSig => simp [cleanerStep, h]
    | add node2 => simp [cleanerStep, h, List.isEmpty_iff, chainInsert_ne_nil]
    | del key => simp [cleanerStep, h, List.isEmpty_iff]
    | timer now =>
      by_cases hc : s.chain.isEmpty = true
      · have hch : s.chain = [] := List.isEmpty_iff.mp hc
        simp [cleanerStep, h, hc, hch]
      · simp [cleanerStep, h, hc, List.isEmpty_iff]
  · intro h
    have hne := chainInsert_ne_nil s.chain node
    constructor
    · simpa [cleanerStep, h] using hne
    · simp [cleanerStep, h, List.isEmpty_iff, hne]
  · intro h
    simp [cleanerStep, h]

/-- Witness for C5: a running cleaner with one record of expiry `5` whose
timer fires at `6` sweeps the chain empty and terminates. -/
theorem c5_cleaner_termination_witness :
    (cleanerStep
      (CleanerState.mk [Item.mk (0 : Nat) 5] ([] : Store Nat Nat) false)
      (Event.timer 6)).terminated = true :=
  ((c5_cleaner_termination
      (CleanerState.mk [Item.mk (0 : Nat) 5] ([] : Store Nat Nat) false)
      (Event.timer 6) [] [] none (Item.mk 0 5)).2.1 rfl).mpr
    (Or.inr (by decide))

/-- Claim C6: CONFIRMED.  Once closed, `SetPermanent`, `Set` and `Delete`
are complete no-ops (state unchanged, no instruction sent), while
`GetExpires`, `Get` and `Range` never consult the closed flag, so reads
return exactly what they would on an open cache with the same store. -/
theorem c6_close_noops [DecidableEq K] [Inhabited V] (c : CacheState K V)
    (k : K) (v : V) (e t : Time) (items : Store K V) (n : Nat)
    (f : K → V → Bool) (hc : c.closed = true) :
    SetPermanent c k v = (c, [])
    ∧ Set c k v e t = (c, [])
    ∧ Delete c k = (c, [])
    ∧ GetExpires (CacheState.mk items n true) k t
        = GetExpires (CacheState.mk items n false) k t
    ∧ Get (CacheState.mk items n true) k t
        = Get (CacheState.mk items n false) k t
    ∧ (Range (CacheState.mk items n true) f t).2.2
        = (Range (CacheState.mk items n false) f t).2.2 := by
  refine ⟨?_, ?_, ?_, rfl, rfl, rfl⟩
  · simp [SetPermanent, hc]
  · simp [Set, hc]
  · simp [Delete, hc]

/-- Witness for C6: a write on a closed cache changes nothing and sends
nothing. -/
theorem c6_close_noops_witness :
    SetPermanent (CacheState.mk ([] : Store Nat Nat) 0 true) 0 1
      = (CacheState.mk ([] : Store Nat Nat) 0 true, []) :=
  (c6_close_noops (CacheState.mk ([] : Store Nat Nat) 0 true) 0 1 5 5 [] 0
      (fun _ _ => true) rfl).1

/-- Claim C7: CONFIRMED.  On an open cache with duplicate-free keys, a
`SetPermanent` write sends no chain instruction, and the key reads back
with the stored value, zero expiry and `found = true` at every later time;
a second identical `SetPermanent` also sends nothing, still reads back the
same way, and leaves exactly one store entry for the key. -/
theorem c7_permanent_never_expires [DecidableEq K] [Inhabited V]
    (c : CacheState K V) (k : K) (v : V) (t : Time) (hopen : c.closed = false)
    (hnd : (c.items.map Prod.fst).Nodup) :
    (SetPermanent c k v).2 = []
    ∧ (SetPermanent (SetPermanent c k v).1 k v).2 = []
    ∧ GetExpires (SetPermanent c k v).1 k t = (v, 0, true)
    ∧ GetExpires (SetPermanent (SetPermanent c k v).1 k v).1 k t
        = (v, 0, true)
    ∧ (SetPermanent (SetPermanent c k v).1 k v).1.items.countP
        (fun p => p.1 == k) = 1 := by
  have h1 : (SetPermanent c k v).1
      = CacheState.mk (mapStore c.items k (c.nextAddr, Item.mk v 0))
          (c.nextAddr + 1) false := by
    simp [SetPermanent, hopen]
  have hopen1 : (SetPermanent c k v).1.closed = false := by
    rw [h1]
  refine ⟨?_, ?_, ?_, ?_, ?_⟩
  · unfold SetPermanent
    split <;> rfl
  · unfold SetPermanent
    split <;> rfl
  · exact getExpires_after_setPermanent c k v t hopen
  · exact getExpires_after_setPermanent (SetPermanent c k v).1 k v t hopen1
  · have h2 : (SetPermanent (SetPermanent c k v).1 k v).1.items
        = mapStore (mapStore c.items k (c.nextAddr, Item.mk v 0)) k
            (c.nextAddr + 1, Item.mk v 0) := by
      rw [h1]
      simp [SetPermanent]
    rw [h2]
    exact mapStore_countP _ k _
      (mapStore_keys_nodup c.items k (c.nextAddr, Item.mk v 0) hnd)

/-- Witness for C7: on the empty open cache, after `SetPermanent 0 1` the
key reads back `(1, 0, true)` at the distant time `100`. -/
theorem c7_permanent_never_expires_witness :
    GetExpires (SetPermanent (CacheState.mk ([] : Store Nat Nat) 0 false)
        0 1).1 0 100 = (1, 0, true) :=
  (c7_permanent_never_expires (CacheState.mk ([] : Store Nat Nat) 0 false)
      0 1 100 rfl (by simp)).2.2.1

/-- Claim C8: CONFIRMED.  `Range` returns the state unchanged and sends no
chain instruction (its body only reads the store); every pair the visitor
is invoked on comes from a store entry that had not expired at check time;
and at most the last invocation may have returned `false` — the iteration
stops there. -/
theorem c8_range_frame [DecidableEq K] [Inhabited V] (c : CacheState K V)
    (f : K → V → Bool) (now : Time) (kv : K × V) :
    (Range c f now).1 = c
    ∧ (Range c f now).2.1 = []
    ∧ (kv ∈ (Range c f now).2.2 →
        ∃ a i, (kv.1, (a, i)) ∈ c.items ∧ Item.HasExpired i now = false
          ∧ kv.2 = i.data)
    ∧ (kv ∈ ((Range c f now).2.2).dropLast → f kv.1 kv.2 = true) :=
  ⟨rfl, rfl, fun h => rangeGo_mem f now c.items kv h,
    fun h => rangeGo_stops f now c.items kv h⟩

/-- Witness for C8: with an expired entry under key `0` and a live entry
under key `1`, the visited pair `(1, 6)` traces back to a live store
entry. -/
theorem c8_range_frame_witness :
    ∃ a i, ((1 : Nat), (a, i))
        ∈ (CacheState.mk
            [((0 : Nat), 0, Item.mk (5 : Nat) 3), (1, 1, Item.mk 6 20)]
            2 false).items
      ∧ Item.HasExpired i 10 = false ∧ (6 : Nat) = i.data :=
  (c8_range_frame
      (CacheState.mk
        [((0 : Nat), 0, Item.mk (5 : Nat) 3), (1, 1, Item.mk 6 20)] 2 false)
      (fun _ _ => true) 10 (1, 6)).2.2.1 (by decide)

/-- Claim C9: CONFIRMED.  All expiry comparisons are strict: at
`now = expires` an item has not expired, `GetExpires`/`Get` still return
it, the `Range` closure still yields it, the sweep does not pop its chain
record, and `Set` accepts an expiry exactly equal to the current time,
writing the store and sending the insert instruction. -/
theorem c9_boundary_strict [DecidableEq K] [Inhabited V]
    (c : CacheState K V) (k : K) (a : Nat) (v : V) (e : Time)
    (rest : List (Item K)) (st : Store K V) (hopen : c.closed = false)
    (hk : mapLoad c.items k = some (a, Item.mk v e)) :
    (Item.mk v e).HasExpired e = false
    ∧ GetExpires c k e = (v, e, true)
    ∧ Get c k e = (v, true)
    ∧ rangeGo (fun _ _ => true) e [(k, (a, Item.mk v e))] = [(k, v)]
    ∧ sweep e (Item.mk k e :: rest) st = (Item.mk k e :: rest, st)
    ∧ Set c k v e e
        = (CacheState.mk (mapStore c.items k (c.nextAddr, Item.mk v e))
            (c.nextAddr + 1) false, [Instr.add (Item.mk k e)]) := by
  have hge : GetExpires c k e = (v, e, true) := by
    rw [GetExpires_eq c k e a (Item.mk v e) hk]
    simp [hasExpired_boundary]
  refine ⟨hasExpired_boundary v e, hge, ?_, ?_, ?_, ?_⟩
  · unfold Get
    rw [hge]
  · simp [rangeGo, hasExpired_boundary]
  · exact sweep_head_live e (Item.mk k e) rest st (hasExpired_boundary k e)
  · have hlt : ¬ e < e := lt_irrefl e
    simp [Set, hopen, hlt]

/-- Witness for C9: key `0` with expiry `5` read at exactly `5` is still
found. -/
theorem c9_boundary_strict_witness :
    GetExpires (CacheState.mk [((0 : Nat), 0, Item.mk (1 : Nat) 5)] 1 false)
      0 5 = (1, 5, true) :=
  (c9_boundary_strict
      (CacheState.mk [((0 : Nat), 0, Item.mk (1 : Nat) 5)] 1 false)
      0 0 1 5 [] [] rfl (by decide)).2.1

/-- Claim C10: CONFIRMED.  A key just written by `SetPermanent` on an open
cache reads back through `GetExpires` as `(value, zero instant, true)`,
while an absent key reads back as `(zero value, zero instant, false)`: the
expiry field is the zero instant in both cases, only the found flag
differs. -/
theorem c10_permanent_reads_zero_expiry [DecidableEq K] [Inhabited V]
    (c : CacheState K V) (k k2 : K) (v : V) (t t2 : Time)
    (hopen : c.closed = false) (habs : mapLoad c.items k2 = none) :
    GetExpires (SetPermanent c k v).1 k t = (v, 0, true)
    ∧ Get (SetPermanent c k v).1 k t = (v, true)
    ∧ GetExpires c k2 t2 = (default, 0, false)
    ∧ Get c k2 t2 = (default, false) := by
  have hge := getExpires_after_setPermanent c k v t hopen
  have hga := GetExpires_none c k2 t2 habs
  refine ⟨hge, ?_, hga, ?_⟩
  · unfold Get
    rw [hge]
  · unfold Get
    rw [hga]

/-- Witness for C10: after `SetPermanent 0 1` on the empty open cache, key
`0` reads `(1, 0, true)` and the absent key `5` reads
`(default, 0, false)`. -/
theorem c10_permanent_reads_zero_expiry_witness :
    Get (CacheState.mk ([] : Store Nat Nat) 0 false) 5 7
      = (default, false) :=
  (c10_permanent_reads_zero_expiry
      (CacheState.mk ([] : Store Nat Nat) 0 false) 0 5 1 3 7 rfl
      (by decide)).2.2.2

end CacheGo
